import Mathlib

/-!
Shallow embedding of `scripts/rule_based_validation.py` (DataValidationSuite).

The embedding follows the source line by line:
* a `Dataset` is the dataframe produced by `pd.read_csv(file, na_values=["", "NA",
  "N/A", "-"])` followed by `df.replace(r'^\s*$', pd.NA, regex=True)` (lines 60-61):
  every column carries its inferred dtype (`numeric` for int64/float64, `object`
  otherwise) and its cells, with `none` standing for a missing value (NaN / pd.NA);
* the detectors (missing values, duplicate rows, negative values, three-sigma
  outliers, invalid categories, ML anomalies, JSON rules) are translated one by one;
* the two scikit-learn anomaly scorers are external library calls, so they enter the
  embedding as an environment `MLEnv` of functions from the numeric sub-frame to
  per-row anomaly labels (or a raised exception); the repository code fixes their
  configuration to contamination 1/100, seed 42, neighborhood 20 (lines 105, 108)
  and performs no exception handling around them;
* fallible steps (`json.load` on a malformed file, pandas `TypeError` on a rule
  comparing a string column with a number, the `KeyError` raised at line 130 when
  `bad_rows` is empty and has no `issue` column) are modelled with `Except`.
-/

namespace DataVal

/-- A cell of the dataframe after parsing and NA normalization: a missing marker
(NaN / pd.NA), a numeric value, or a string value. -/
inductive Cell where
  | na : Cell
  | num : ℚ → Cell
  | str : String → Cell
deriving DecidableEq, Repr

/-- Column storage with its inferred dtype: a numeric (int64/float64) column holds
optional rationals (`none` = NaN), an `object` column holds optional strings. -/
inductive ColData where
  | numeric : List (Option ℚ) → ColData
  | object : List (Option String) → ColData
deriving DecidableEq, Repr

/-- A named dataframe column. -/
structure Col where
  name : String
  data : ColData
deriving DecidableEq, Repr

/-- The dataframe `df` of `validate_dataset` after lines 60-61. -/
structure Dataset where
  cols : List Col
deriving DecidableEq, Repr

/-- Number of stored cells of a column. -/
def ColData.length : ColData → Nat
  | .numeric v => v.length
  | .object v => v.length

/-- Cell of a column at a row index (missing outside the range; in a well-formed
dataframe every access is in range). -/
def ColData.cellAt : ColData → Nat → Cell
  | .numeric v, i =>
    match v.get? i with
    | some (some q) => .num q
    | _ => .na
  | .object v, i =>
    match v.get? i with
    | some (some s) => .str s
    | _ => .na

/-- Number of rows of the dataframe (all columns have the same length in a
well-formed dataframe; we read it off the first column). -/
def Dataset.nrows (ds : Dataset) : Nat :=
  match ds.cols with
  | [] => 0
  | c :: _ => c.data.length

/-- Well-formedness: every column has exactly `nrows` cells. -/
def Dataset.Wf (ds : Dataset) : Prop := ∀ c ∈ ds.cols, c.data.length = ds.nrows

/-- Row `i` of the dataframe, as the list of its cells in column order. -/
def rowOf (ds : Dataset) (i : Nat) : List Cell := ds.cols.map (fun c => c.data.cellAt i)

/-- Row `i` of the dataframe together with the column names. -/
def fullRowCells (ds : Dataset) (i : Nat) : List (String × Cell) :=
  ds.cols.map (fun c => (c.name, c.data.cellAt i))

/-- One row of `bad_rows`: the original row index, the cells of the columns present
in the frame the row was selected from (pandas fills the remaining columns of the
concatenated frame with NaN), and the value of the `issue` column. -/
structure FlaggedRow where
  idx : Nat
  cells : List (String × Cell)
  issue : String
deriving DecidableEq, Repr

/-- Reading a column of a flagged row: columns absent from the row's source frame
are NaN after `pd.concat` (this is how the ML-anomaly rows, selected from
`df[numeric_cols]`, appear in `bad_rows`). -/
def FlaggedRow.cellAtName (fr : FlaggedRow) (n : String) : Cell :=
  match fr.cells.find? (fun p => p.1 == n) with
  | some p => p.2
  | none => .na

/-- Whether a cell is the missing marker. -/
def Cell.isNa : Cell → Bool
  | .na => true
  | _ => false

/-- Indices of rows with at least one missing cell: `df[df.isnull().any(axis=1)]`
(line 66). -/
def missingIdx (ds : Dataset) : List Nat :=
  (List.range ds.nrows).filter (fun i => (rowOf ds i).any Cell.isNa)

/-- The missing-value detector's flagged rows (line 69). -/
def missingFRs (ds : Dataset) : List FlaggedRow :=
  (missingIdx ds).map (fun i => ⟨i, fullRowCells ds i, "missing"⟩)

/-- Worker for `df.duplicated()`: a row is marked iff an identical row occurred
earlier (`keep='first'`; NaN cells compare equal to each other, as in pandas). -/
def dupFlagsAux : List (List Cell) → List (List Cell) → List Bool
  | _, [] => []
  | seen, r :: rest => decide (r ∈ seen) :: dupFlagsAux (r :: seen) rest

/-- The boolean mask `df.duplicated()` (line 72). -/
def dupFlags (rows : List (List Cell)) : List Bool := dupFlagsAux [] rows

/-- All rows of the dataframe in order. -/
def rowsOf (ds : Dataset) : List (List Cell) := (List.range ds.nrows).map (rowOf ds)

/-- Indices of the rows marked by `df.duplicated()`. -/
def dupIdx (ds : Dataset) : List Nat :=
  ((List.range ds.nrows).zip (dupFlags (rowsOf ds))).filterMap
    (fun p => if p.2 then some p.1 else none)

/-- The duplicate-row detector's flagged rows (line 75). -/
def dupFRs (ds : Dataset) : List FlaggedRow :=
  (dupIdx ds).map (fun i => ⟨i, fullRowCells ds i, "duplicate"⟩)

/-- `df.select_dtypes(include=['int64', 'float64']).columns` with the column data
(line 78), in column order. -/
def numericColsOf (ds : Dataset) : List (String × List (Option ℚ)) :=
  ds.cols.filterMap (fun c =>
    match c.data with
    | .numeric v => some (c.name, v)
    | .object _ => none)

/-- `df.select_dtypes(include=['object']).columns` with the column data (line 94). -/
def objectColsOf (ds : Dataset) : List (String × List (Option String)) :=
  ds.cols.filterMap (fun c =>
    match c.data with
    | .object v => some (c.name, v)
    | .numeric _ => none)

/-- Indices selected by `df[df[col] < 0]` (line 80); a NaN comparison is false. -/
def negIdxCol (vals : List (Option ℚ)) : List Nat :=
  (List.range vals.length).filter (fun i =>
    match vals.get? i with
    | some (some v) => decide (v < 0)
    | _ => false)

/-- The negative-value detector's flagged rows (lines 79-83), per numeric column in
column order. -/
def negFRs (ds : Dataset) : List FlaggedRow :=
  (numericColsOf ds).flatMap (fun c =>
    (negIdxCol c.2).map (fun i => ⟨i, fullRowCells ds i, c.1 ++ "_negative"⟩))

/-- The non-missing values of a numeric column (pandas `mean`/`std` skip NaN). -/
def colVals (vals : List (Option ℚ)) : List ℚ := vals.filterMap id

/-- Count of non-missing values of a numeric column. -/
def colCount (vals : List (Option ℚ)) : Nat := (colVals vals).length

/-- `df[col].mean()` over the non-missing values (line 87). -/
def colMean (vals : List (Option ℚ)) : ℚ := (colVals vals).sum / (colCount vals : ℚ)

/-- The square of `df[col].std()` (sample variance, ddof = 1, line 87); only used
when at least two values are present (otherwise pandas yields NaN and the
three-sigma mask at line 88 is all false). -/
def colVar (vals : List (Option ℚ)) : ℚ :=
  ((colVals vals).map (fun v => (v - colMean vals) ^ 2)).sum / ((colCount vals : ℚ) - 1)

/-- The three-sigma mask of line 88 at row `i`: when fewer than two values are
present `std` is NaN and both comparisons are false; otherwise
`v > mean + 3*std ∨ v < mean - 3*std` is encoded without the irrational square
root as `(v - mean)^2 > 9 * var` (an exact equivalence for `std = √var ≥ 0`,
proved in `three_sigma_sq_iff` below). -/
def outFlagCol (vals : List (Option ℚ)) (i : Nat) : Bool :=
  if colCount vals < 2 then false
  else
    match vals.get? i with
    | some (some v) => decide ((v - colMean vals) ^ 2 > 9 * colVar vals)
    | _ => false

/-- Indices selected by the three-sigma mask (line 88). -/
def outIdxCol (vals : List (Option ℚ)) : List Nat :=
  (List.range vals.length).filter (outFlagCol vals)

/-- The statistical-outlier detector's flagged rows (lines 86-91). -/
def outFRs (ds : Dataset) : List FlaggedRow :=
  (numericColsOf ds).flatMap (fun c =>
    (outIdxCol c.2).map (fun i => ⟨i, fullRowCells ds i, c.1 ++ "_outlier"⟩))

/-- Indices selected by `df[df[col].isnull()]` on an object column (line 96). -/
def invIdxCol (vals : List (Option String)) : List Nat :=
  (List.range vals.length).filter (fun i =>
    match vals.get? i with
    | some none => true
    | _ => false)

/-- The invalid-category detector's flagged rows (lines 95-99). -/
def invFRs (ds : Dataset) : List FlaggedRow :=
  (objectColsOf ds).flatMap (fun c =>
    (invIdxCol c.2).map (fun i => ⟨i, fullRowCells ds i, c.1 ++ "_invalid_category"⟩))

/-- Semantics of the external scikit-learn scorers. `iso c s rows` models
`IsolationForest(contamination=c, random_state=s).fit_predict(rows)` and
`lof k c rows` models
`LocalOutlierFactor(n_neighbors=k, contamination=c).fit_predict(rows)`:
`true` at a position stands for the label `-1` (anomaly); a raised exception is an
`error` (the repository wraps neither call in any exception handler). -/
structure MLEnv where
  iso : ℚ → Nat → List (List ℚ) → Except String (List Bool)
  lof : Nat → ℚ → List (List ℚ) → Except String (List Bool)

/-- The exceptions `validate_dataset` can raise. -/
inductive Err where
  | mlError : String → Err
  | parseError : Err
  | typeError : Err
  | keyErrorIssue : Err
deriving DecidableEq, Repr

/-- The numeric cells of row `i`, provided none is missing (`dropna`, line 103). -/
def mlRowAt (ds : Dataset) (i : Nat) : Option (List ℚ) :=
  (numericColsOf ds).mapM (fun c => (c.2.get? i).bind id)

/-- `ml_df = df[numeric_cols].dropna()` (line 103): the rows whose numeric cells are
all present, with their original indices. -/
def mlInput (ds : Dataset) : List (Nat × List ℚ) :=
  (List.range ds.nrows).filterMap (fun i => (mlRowAt ds i).map (fun v => (i, v)))

/-- `ml_df[labels == -1]` (lines 107, 110). -/
def selectFlagged (input : List (Nat × List ℚ)) (labels : List Bool) :
    List (Nat × List ℚ) :=
  (input.zip labels).filterMap (fun p => if p.2 then some p.1 else none)

/-- `pd.concat([...]).drop_duplicates()` (line 111): deduplication by the cell
values (all numeric columns), keeping the first occurrence. -/
def dedupVals : List (List ℚ) → List (Nat × List ℚ) → List (Nat × List ℚ)
  | _, [] => []
  | seen, p :: rest =>
    if p.2 ∈ seen then dedupVals seen rest
    else p :: dedupVals (p.2 :: seen) rest

/-- The ML-anomaly flagged rows (line 113): the rows of `ml_outliers` carry only the
numeric columns, so only those cells survive into `bad_rows`. -/
def mlFRs (ds : Dataset) (sel : List (Nat × List ℚ)) : List FlaggedRow :=
  sel.map (fun p =>
    ⟨p.1, ((numericColsOf ds).map Prod.fst).zip (p.2.map Cell.num), "ML_anomaly"⟩)

/-- The ML-anomalies block (lines 101-114): skipped when there is no numeric column
or no complete numeric row; otherwise the two scorers run at the fixed
configuration (contamination 1/100, seed 42, neighborhood 20) and an exception
from either aborts `validate_dataset`. -/
def mlStep (ds : Dataset) (env : MLEnv) : Except Err (List FlaggedRow) :=
  if numericColsOf ds = [] then .ok []
  else if mlInput ds = [] then .ok []
  else
    match env.iso (1 / 100) 42 ((mlInput ds).map Prod.snd) with
    | .error e => .error (.mlError e)
    | .ok isoLabels =>
      match env.lof 20 (1 / 100) ((mlInput ds).map Prod.snd) with
      | .error e => .error (.mlError e)
      | .ok lofLabels =>
        .ok (mlFRs ds (dedupVals []
          (selectFlagged (mlInput ds) isoLabels ++
            selectFlagged (mlInput ds) lofLabels)))

/-- A parsed rule-set entry: the optional keys `min`, `max`, `allowed` of the JSON
object for one column. -/
structure Rule where
  min : Option ℚ
  max : Option ℚ
  allowed : Option (List Cell)
deriving DecidableEq, Repr

/-- A parsed rule set: the JSON object as an ordered key-value list (Python dict
keys are unique and keep insertion order). -/
def Rules := List (String × Rule)

/-- `df[col]` lookup (`col in df.columns` guards each rule entry). -/
def colDataOf (ds : Dataset) (col : String) : Option ColData :=
  (ds.cols.find? (fun c => c.name == col)).map Col.data

/-- Indices of a numeric column whose present value satisfies `p` (a NaN comparison
is false). -/
def idxWhereNum (vals : List (Option ℚ)) (p : ℚ → Bool) : List Nat :=
  (List.range vals.length).filter (fun i =>
    match vals.get? i with
    | some (some v) => p v
    | _ => false)

/-- `df[df[col] < rule["min"]]` (line 37); comparing an object column with a number
raises a pandas `TypeError`. -/
def ruleMinFRs (ds : Dataset) (col : String) (m : ℚ) : Except Unit (List FlaggedRow) :=
  match colDataOf ds col with
  | some (.numeric vals) =>
    .ok ((idxWhereNum vals (fun v => decide (v < m))).map
      (fun i => ⟨i, fullRowCells ds i, col ++ "_below_min"⟩))
  | some (.object _) => .error ()
  | none => .ok []

/-- `df[df[col] > rule["max"]]` (line 42). -/
def ruleMaxFRs (ds : Dataset) (col : String) (m : ℚ) : Except Unit (List FlaggedRow) :=
  match colDataOf ds col with
  | some (.numeric vals) =>
    .ok ((idxWhereNum vals (fun v => decide (v > m))).map
      (fun i => ⟨i, fullRowCells ds i, col ++ "_above_max"⟩))
  | some (.object _) => .error ()
  | none => .ok []

/-- `df[~df[col].isin(rule["allowed"])]` (line 47); a missing cell is not a member
of the allowed list, so it is flagged. -/
def ruleAllowedFRs (ds : Dataset) (col : String) (l : List Cell) : List FlaggedRow :=
  match colDataOf ds col with
  | some d =>
    ((List.range d.length).filter (fun i => decide (d.cellAt i ∉ l))).map
      (fun i => ⟨i, fullRowCells ds i, col ++ "_invalid_value"⟩)
  | none => []

/-- The `if "min" in rule:` block (lines 36-40): runs the `min` check when the key
is present. -/
def minCheck (ds : Dataset) (col : String) : Option ℚ → Except Unit (List FlaggedRow)
  | some m => ruleMinFRs ds col m
  | none => .ok []

/-- The `if "max" in rule:` block (lines 41-45). -/
def maxCheck (ds : Dataset) (col : String) : Option ℚ → Except Unit (List FlaggedRow)
  | some m => ruleMaxFRs ds col m
  | none => .ok []

/-- The `if "allowed" in rule:` block (lines 46-50). -/
def allowedCheck (ds : Dataset) (col : String) : Option (List Cell) → List FlaggedRow
  | some l => ruleAllowedFRs ds col l
  | none => []

/-- One iteration of the loop of `apply_json_rules` (lines 33-50): a column absent
from the dataframe is skipped, then the `min`, `max`, `allowed` checks run
independently, each appending its own flagged rows. -/
def applyEntry (ds : Dataset) (col : String) (r : Rule) : Except Unit (List FlaggedRow) :=
  if (colDataOf ds col).isNone then .ok []
  else
    match minCheck ds col r.min with
    | .error u => .error u
    | .ok a =>
      match maxCheck ds col r.max with
      | .error u => .error u
      | .ok b => .ok (a ++ b ++ allowedCheck ds col r.allowed)

/-- `apply_json_rules` (lines 31-51). -/
def applyJsonRules (ds : Dataset) : List (String × Rule) → Except Unit (List FlaggedRow)
  | [] => .ok []
  | e :: rest =>
    match applyEntry ds e.1 e.2 with
    | .error u => .error u
    | .ok a =>
      match applyJsonRules ds rest with
      | .error u => .error u
      | .ok b => .ok (a ++ b)

/-- The rule-set argument of `validate_dataset`: no handle (`rules_path=None`), a
handle to a non-existent file (`Path(rules_path).exists()` false), or an existing
file whose content either fails to parse (`none`, `json.load` raises) or parses to
a rule set. -/
inductive RulesSource where
  | noHandle : RulesSource
  | missingFile : RulesSource
  | file : Option (List (String × Rule)) → RulesSource

/-- The JSON-rules block (lines 116-124): skipped without a loadable file; a
malformed file raises out of `json.load`; a type-mismatched rule raises out of the
pandas comparison. -/
def jsonStep (ds : Dataset) (rs : RulesSource) : Except Err (List FlaggedRow) :=
  match rs with
  | .noHandle => .ok []
  | .missingFile => .ok []
  | .file none => .error .parseError
  | .file (some rules) =>
    match applyJsonRules ds rules with
    | .error _ => .error .typeError
    | .ok l => .ok l

/-- The `issues_summary` dict built by `validate_dataset`: each entry is inserted
only when its detector flagged at least one row, in the textual order of the
blocks (lines 68, 74, 83, 91, 99, 114, 124). -/
def summaryOf (ds : Dataset) (mlCount jsonCount : Nat) : List (String × Nat) :=
  (if missingIdx ds ≠ [] then [("Missing Values", (missingIdx ds).length)] else []) ++
  (if dupIdx ds ≠ [] then [("Duplicate Rows", (dupIdx ds).length)] else []) ++
  ((numericColsOf ds).flatMap (fun c =>
    if negIdxCol c.2 ≠ [] then
      [("Negative Values (" ++ c.1 ++ ")", (negIdxCol c.2).length)]
    else [])) ++
  ((numericColsOf ds).flatMap (fun c =>
    if outIdxCol c.2 ≠ [] then
      [("Outliers (" ++ c.1 ++ ")", (outIdxCol c.2).length)]
    else [])) ++
  ((objectColsOf ds).flatMap (fun c =>
    if invIdxCol c.2 ≠ [] then
      [("Invalid Categories (" ++ c.1 ++ ")", (invIdxCol c.2).length)]
    else [])) ++
  (if mlCount ≠ 0 then [("ML Anomalies", mlCount)] else []) ++
  (if jsonCount ≠ 0 then [("JSON Rule Violations", jsonCount)] else [])

/-- Every potential summary category paired with its count, in the fixed order of
the spec's Aggregator section; the returned summary keeps exactly the entries with
a positive count (proved in the theorem for claim C7). -/
def canonicalPairs (ds : Dataset) (mlCount jsonCount : Nat) : List (String × Nat) :=
  [("Missing Values", (missingIdx ds).length),
   ("Duplicate Rows", (dupIdx ds).length)] ++
  ((numericColsOf ds).map (fun c => ("Negative Values (" ++ c.1 ++ ")", (negIdxCol c.2).length))) ++
  ((numericColsOf ds).map (fun c => ("Outliers (" ++ c.1 ++ ")", (outIdxCol c.2).length))) ++
  ((objectColsOf ds).map (fun c => ("Invalid Categories (" ++ c.1 ++ ")", (invIdxCol c.2).length))) ++
  [("ML Anomalies", mlCount), ("JSON Rule Violations", jsonCount)]

/-- The pair (`bad_rows`, `issues_summary`) returned by `validate_dataset` (the
report file path is out of scope). -/
structure ValidateResult where
  flagged : List FlaggedRow
  summary : List (String × Nat)
deriving DecidableEq, Repr

/-- The final `bad_rows`: the detector outputs concatenated in textual order of
the blocks, given the ML and JSON contributions `m` and `j`. -/
def allFlagged (ds : Dataset) (m j : List FlaggedRow) : List FlaggedRow :=
  missingFRs ds ++ dupFRs ds ++ negFRs ds ++ outFRs ds ++ invFRs ds ++ m ++ j

/-- `validate_dataset` (lines 53-146). The detectors run in textual order; the ML
block runs before the rules file is opened, so a scorer exception pre-empts a parse
error; at line 130 the report builder evaluates `bad_rows['issue']`, which raises a
`KeyError` when no detector flagged any row (the empty frame has no `issue`
column); otherwise the function returns `bad_rows` and `issues_summary`. -/
def validate (ds : Dataset) (env : MLEnv) (rs : RulesSource) : Except Err ValidateResult :=
  match mlStep ds env with
  | .error e => .error e
  | .ok m =>
    match jsonStep ds rs with
    | .error e => .error e
    | .ok j =>
      if allFlagged ds m j = [] then .error .keyErrorIssue
      else .ok ⟨allFlagged ds m j, summaryOf ds m.length j.length⟩

/-- Normalization of one raw CSV token: `read_csv(..., na_values=["", "NA", "N/A",
"-"])` plus `df.replace(r'^\s*$', pd.NA, regex=True)` map the empty string, the
three markers and every whitespace-only token to the missing marker. -/
def normalizeCell (s : String) : Option String :=
  if s = "NA" ∨ s = "N/A" ∨ s = "-" ∨ s.data.all Char.isWhitespace then none
  else some s

/-- The dataframe read from raw CSV rows whose columns stay textual (`object`
dtype): each token goes through `normalizeCell`. -/
def buildObjectDataset (names : List String) (rows : List (List String)) : Dataset :=
  ⟨(List.range names.length).map (fun k =>
    ⟨names.getD k "", .object (rows.map (fun r => normalizeCell (r.getD k "")))⟩)⟩

/-- Number of flagged rows carrying a given issue label. -/
def labelCount (frs : List FlaggedRow) (s : String) : Nat :=
  frs.countP (fun fr => fr.issue == s)

/-- The standard deviation `df[col].std()` as a real number, `√(colVar)`; the
executable detector `outFlagCol` avoids the irrational square root through the
equivalent squared comparison. -/
noncomputable def colStd (vals : List (Option ℚ)) : ℝ :=
  Real.sqrt ((colVar vals : ℚ) : ℝ)

/-- The flagged rows a rule's `min` check contributes when it runs without a
`TypeError` (empty when the rule has no `min` or the column is absent). -/
def ruleMinList (ds : Dataset) (col : String) (r : Rule) : List FlaggedRow :=
  match r.min, colDataOf ds col with
  | some m, some (.numeric vals) =>
    (idxWhereNum vals (fun v => decide (v < m))).map
      (fun i => ⟨i, fullRowCells ds i, col ++ "_below_min"⟩)
  | _, _ => []

/-- The flagged rows a rule's `max` check contributes when it runs without a
`TypeError`. -/
def ruleMaxList (ds : Dataset) (col : String) (r : Rule) : List FlaggedRow :=
  match r.max, colDataOf ds col with
  | some m, some (.numeric vals) =>
    (idxWhereNum vals (fun v => decide (v > m))).map
      (fun i => ⟨i, fullRowCells ds i, col ++ "_above_max"⟩)
  | _, _ => []

/-- The flagged rows a rule's `allowed` check contributes. -/
def ruleAllowedList (ds : Dataset) (col : String) (r : Rule) : List FlaggedRow :=
  match r.allowed, colDataOf ds col with
  | some l, some d =>
    ((List.range d.length).filter (fun i => decide (d.cellAt i ∉ l))).map
      (fun i => ⟨i, fullRowCells ds i, col ++ "_invalid_value"⟩)
  | _, _ => []

/-- All flagged rows one rule entry contributes when it runs without a
`TypeError`. -/
def entryList (ds : Dataset) (col : String) (r : Rule) : List FlaggedRow :=
  ruleMinList ds col r ++ ruleMaxList ds col r ++ ruleAllowedList ds col r

/-- An environment in which neither scorer flags anything and neither raises. -/
def envOk : MLEnv :=
  ⟨fun _ _ rows => .ok (rows.map (fun _ => false)),
   fun _ _ rows => .ok (rows.map (fun _ => false))⟩

/-- A syntactically different environment with the same behaviour as `envOk` at
every input (used to witness that `validate` depends on the scorers only through
their values at the fixed configuration). -/
def envOkB : MLEnv :=
  ⟨fun _ _ rows => .ok (rows.map (fun _ => decide (1 < 0))),
   fun _ _ rows => .ok (rows.map (fun _ => decide (2 < 1)))⟩

/-- An environment in which the isolation-forest scorer labels exactly the first
row of its input anomalous. -/
def envFlagFirst : MLEnv :=
  ⟨fun _ _ rows =>
    .ok (match rows with
      | [] => []
      | _ :: rest => true :: rest.map (fun _ => false)),
   fun _ _ rows => .ok (rows.map (fun _ => false))⟩

/-- An environment in which the local-outlier-factor scorer raises (as
scikit-learn's `LocalOutlierFactor(n_neighbors=20)` does on a single sample). -/
def envLofFail : MLEnv :=
  ⟨fun _ _ rows => .ok (rows.map (fun _ => false)),
   fun _ _ _ => .error "Expected n_neighbors <= n_samples"⟩

/-- A dataframe with a numeric column and a text column and no rule-based issues:
only the ML detector can flag rows here. -/
def dsML : Dataset :=
  ⟨[⟨"x", .numeric [some 1, some 2]⟩, ⟨"t", .object [some "a", some "b"]⟩]⟩

/-- A dataframe with a single complete numeric row (one sample for the scorers). -/
def dsOneRow : Dataset := ⟨[⟨"x", .numeric [some 5]⟩]⟩

/-- A dataframe on which no detector flags anything: one text column, one row, no
missing cell, no duplicate, no numeric column. -/
def dsNoIssues : Dataset := ⟨[⟨"t", .object [some "a"]⟩]⟩

/-- Another dataframe on which no detector flags anything. -/
def dsClean : Dataset := ⟨[⟨"u", .object [some "v"]⟩]⟩

/-- The dataset of the spec's rule-detector example: a `price` column with values
−5, 500, 2000. -/
def dsPrice : Dataset := ⟨[⟨"price", .numeric [some (-5), some 500, some 2000]⟩]⟩

/-- The rule set of the spec's rule-detector example:
`{"price": {"min": 0, "max": 1000}}`. -/
def rulesPrice : List (String × Rule) := [("price", ⟨some 0, some 1000, none⟩)]

/-- A dataframe of the shape [A, A, A]: three identical rows. -/
def dsTriple : Dataset := ⟨[⟨"t", .object [some "a", some "a", some "a"]⟩]⟩

/-- The result `validate` returns on `dsTriple` with `envOk` and no rules. -/
def wTriple : ValidateResult :=
  ⟨[⟨1, [("t", .str "a")], "duplicate"⟩, ⟨2, [("t", .str "a")], "duplicate"⟩],
   [("Duplicate Rows", 2)]⟩

/-- A numeric column with nineteen zeros and one extreme value, whose last row is
a three-sigma outlier. -/
def vals20 : List (Option ℚ) := List.replicate 19 (some 0) ++ [some 100]

attribute [local semireducible] Rat.sub Rat.add Rat.mul Rat.inv

instance instDecEqExcept {e a : Type} [DecidableEq e] [DecidableEq a] :
    DecidableEq (Except e a) := fun x y =>
  match x, y with
  | .error u, .error v =>
    if h : u = v then isTrue (congrArg Except.error h)
    else isFalse (fun hc => h (by injection hc))
  | .error _, .ok _ => isFalse (fun hc => Except.noConfusion hc)
  | .ok _, .error _ => isFalse (fun hc => Except.noConfusion hc)
  | .ok u, .ok v =>
    if h : u = v then isTrue (congrArg Except.ok h)
    else isFalse (fun hc => h (by injection hc))

/-! ### Helper lemmas about strings and the building blocks -/

lemma append_ne_of_not_suffix {s t : String} (a : String)
    (h : ¬ s.data <:+ t.data) : a ++ s ≠ t := by
  intro he
  apply h
  have hd : a.data ++ s.data = t.data := by
    rw [← String.data_append, he]
  exact hd ▸ List.suffix_append a.data s.data

lemma append_ne_of_not_prefix {p t : String} (x : String)
    (h : ¬ p.data <+: t.data) : p ++ x ≠ t := by
  intro he
  apply h
  have hd : p.data ++ x.data = t.data := by
    rw [← String.data_append, he]
  exact hd ▸ List.prefix_append p.data x.data

lemma suffix_clash {a b s t : String} (h : a ++ s = b ++ t) :
    s.data <:+ t.data ∨ t.data <:+ s.data := by
  have hd : a.data ++ s.data = b.data ++ t.data := by
    rw [← String.data_append, ← String.data_append, h]
  have h1 : s.data <:+ b.data ++ t.data := hd ▸ List.suffix_append a.data s.data
  exact List.suffix_or_suffix_of_suffix h1 (List.suffix_append b.data t.data)

lemma string_append_right_cancel {a b s : String} (h : a ++ s = b ++ s) : a = b := by
  apply String.ext
  have hd := congrArg String.data h
  rw [String.data_append, String.data_append] at hd
  exact List.append_cancel_right hd

lemma validate_ok_iff {ds : Dataset} {env : MLEnv} {rs : RulesSource}
    {r : ValidateResult} :
    validate ds env rs = .ok r ↔
      ∃ m j, mlStep ds env = .ok m ∧ jsonStep ds rs = .ok j ∧
        allFlagged ds m j ≠ [] ∧
        r = ⟨allFlagged ds m j, summaryOf ds m.length j.length⟩ := by
  constructor
  · intro h
    unfold validate at h
    cases hm : mlStep ds env with
    | error e => rw [hm] at h; simp at h
    | ok m =>
      rw [hm] at h
      cases hj : jsonStep ds rs with
      | error e => rw [hj] at h; simp at h
      | ok j =>
        rw [hj] at h
        dsimp only at h
        by_cases he : allFlagged ds m j = []
        · rw [if_pos he] at h
          simp at h
        · rw [if_neg he] at h
          refine ⟨m, j, rfl, rfl, he, ?_⟩
          simpa using h.symm
  · rintro ⟨m, j, hm, hj, hne, hr⟩
    unfold validate
    rw [hm, hj]
    dsimp only
    rw [if_neg hne, hr]

/-! ### Theorems for the claims -/

/-- Claim C1 (code bug): a row flagged `ML_anomaly` does not exist verbatim in the
input dataset. On the dataframe `dsML` (numeric column `x` = [1, 2], text column
`t` = ["a", "b"]) with an environment whose isolation-forest scorer flags the first
row, `validate` returns exactly one flagged row, carrying only the numeric column
`x`; reading its `t` column gives the missing marker, so it does not agree with any
original row in every column of the dataset. -/
theorem ml_anomaly_row_drops_object_columns :
    validate dsML envFlagFirst .noHandle =
      .ok ⟨[⟨0, [("x", .num 1)], "ML_anomaly"⟩], [("ML Anomalies", 1)]⟩ ∧
    (∀ i < dsML.nrows, ¬ ∀ c ∈ dsML.cols,
      FlaggedRow.cellAtName ⟨0, [("x", .num 1)], "ML_anomaly"⟩ c.name =
        c.data.cellAt i) :=
  ⟨by decide, by decide⟩

/-- Claim C2 (code bug): when a scorer cannot run, `validate_dataset` raises
instead of degrading gracefully. On `dsOneRow` the numeric sub-frame has a single
complete row, on which scikit-learn's `LocalOutlierFactor(n_neighbors=20)` raises;
the exception propagates out of `validate` (there is no exception handler around
the ML block), aborting the whole run. -/
theorem ml_scorer_exception_aborts_run :
    mlInput dsOneRow = [(0, [5])] ∧
    validate dsOneRow envLofFail .noHandle =
      .error (.mlError "Expected n_neighbors <= n_samples") :=
  ⟨by decide, by decide⟩

/-- Claim C9 (confirmed): on a dataset where no detector flags any row (here one
text column, one row, nothing missing, no duplicate, no numeric column), every
detector output is empty and `validate` raises the `KeyError` of line 130 (the
empty `bad_rows` frame has no `issue` column) instead of returning empty results. -/
theorem clean_dataset_report_raises_keyerror :
    missingFRs dsNoIssues = [] ∧ dupFRs dsNoIssues = [] ∧ negFRs dsNoIssues = [] ∧
    outFRs dsNoIssues = [] ∧ invFRs dsNoIssues = [] ∧
    mlStep dsNoIssues envOk = .ok [] ∧ jsonStep dsNoIssues .noHandle = .ok [] ∧
    validate dsNoIssues envOk .noHandle = .error .keyErrorIssue := by
  refine ⟨by decide, by decide, by decide, by decide, by decide, by decide, by decide, by decide⟩

/-- Claim C3, counterexample: with a rule-set handle pointing to a non-existent
file, the run is not always non-fatal — on a dataset with no issues the run still
raises (the empty-`bad_rows` `KeyError`), refuting the claim's "and the run is
non-fatal" as stated. -/
theorem missing_rules_file_fatal_on_clean_data :
    validate dsClean envOk .missingFile = .error .keyErrorIssue := by decide

lemma dupFlagsAux_getD (seen : List (List Cell)) (rows : List (List Cell)) (i : Nat)
    (h : i < rows.length) :
    ((dupFlagsAux seen rows).getD i false = true ↔
      ∃ r, rows.get? i = some r ∧ (r ∈ seen ∨ ∃ j < i, rows.get? j = some r)) := by
  induction rows generalizing seen i with
  | nil => simp at h
  | cons a rest ih =>
    cases i with
    | zero => simp [dupFlagsAux]
    | succ n =>
      have hn : n < rest.length := by simpa using h
      rw [dupFlagsAux]
      rw [List.getD_cons_succ, ih (a :: seen) n hn]
      constructor
      · rintro ⟨r, hr, hcase⟩
        refine ⟨r, by simpa using hr, ?_⟩
        rcases hcase with hmem | ⟨j, hj, hget⟩
        · rcases List.mem_cons.mp hmem with rfl | hmem2
          · exact Or.inr ⟨0, Nat.succ_pos n, rfl⟩
          · exact Or.inl hmem2
        · exact Or.inr ⟨j + 1, Nat.succ_lt_succ hj, by simpa using hget⟩
      · rintro ⟨r, hr, hcase⟩
        refine ⟨r, by simpa using hr, ?_⟩
        rcases hcase with hmem | ⟨j, hj, hget⟩
        · exact Or.inl (List.mem_cons_of_mem a hmem)
        · cases j with
          | zero =>
            have ha : a = r := by simpa using hget
            exact Or.inl (ha ▸ List.mem_cons_self a seen)
          | succ k =>
            exact Or.inr ⟨k, Nat.lt_of_succ_lt_succ hj, by simpa using hget⟩

lemma dupFlags_getD_iff (rows : List (List Cell)) (i : Nat) (h : i < rows.length) :
    ((dupFlags rows).getD i false = true ↔ ∃ j < i, rows.get? j = rows.get? i) := by
  rw [dupFlags, dupFlagsAux_getD [] rows i h]
  cases hr : rows.get? i with
  | none =>
    rw [List.get?_eq_none] at hr
    omega
  | some r => simp [hr]

lemma mem_missingFRs_issue {ds : Dataset} {fr : FlaggedRow}
    (h : fr ∈ missingFRs ds) : fr.issue = "missing" := by
  simp only [missingFRs, List.mem_map] at h
  obtain ⟨i, -, rfl⟩ := h
  rfl

lemma mem_dupFRs_issue {ds : Dataset} {fr : FlaggedRow}
    (h : fr ∈ dupFRs ds) : fr.issue = "duplicate" := by
  simp only [dupFRs, List.mem_map] at h
  obtain ⟨i, -, rfl⟩ := h
  rfl

lemma mem_negFRs_issue {ds : Dataset} {fr : FlaggedRow}
    (h : fr ∈ negFRs ds) : ∃ c, fr.issue = c ++ "_negative" := by
  simp only [negFRs, List.mem_flatMap, List.mem_map] at h
  obtain ⟨c, -, i, -, rfl⟩ := h
  exact ⟨c.1, rfl⟩

lemma mem_outFRs_issue {ds : Dataset} {fr : FlaggedRow}
    (h : fr ∈ outFRs ds) : ∃ c, fr.issue = c ++ "_outlier" := by
  simp only [outFRs, List.mem_flatMap, List.mem_map] at h
  obtain ⟨c, -, i, -, rfl⟩ := h
  exact ⟨c.1, rfl⟩

lemma mem_invFRs_issue {ds : Dataset} {fr : FlaggedRow}
    (h : fr ∈ invFRs ds) : ∃ c, fr.issue = c ++ "_invalid_category" := by
  simp only [invFRs, List.mem_flatMap, List.mem_map] at h
  obtain ⟨c, -, i, -, rfl⟩ := h
  exact ⟨c.1, rfl⟩

lemma mlStep_ok_issue {ds : Dataset} {env : MLEnv} {m : List FlaggedRow}
    (h : mlStep ds env = .ok m) : ∀ fr ∈ m, fr.issue = "ML_anomaly" := by
  unfold mlStep at h
  split at h
  · injection h with h2
    subst h2
    simp
  · split at h
    · injection h with h2
      subst h2
      simp
    · split at h
      · exact absurd h (by simp)
      · split at h
        · exact absurd h (by simp)
        · injection h with h2
          subst h2
          intro fr hfr
          simp only [mlFRs, List.mem_map] at hfr
          obtain ⟨p, -, rfl⟩ := hfr
          rfl

lemma minCheck_ok {ds : Dataset} {col : String} {mn : Option ℚ} {a : List FlaggedRow}
    (h : minCheck ds col mn = .ok a) (mx : Option ℚ) (al : Option (List Cell)) :
    a = ruleMinList ds col ⟨mn, mx, al⟩ := by
  cases mn with
  | none =>
    injection h with h2
    simp [← h2, ruleMinList]
  | some m =>
    simp only [minCheck] at h
    unfold ruleMinFRs at h
    cases hd : colDataOf ds col with
    | none =>
      rw [hd] at h
      injection h with h2
      simp [← h2, ruleMinList, hd]
    | some d =>
      cases d with
      | numeric vals =>
        rw [hd] at h
        injection h with h2
        simp [← h2, ruleMinList, hd]
      | object vals =>
        rw [hd] at h
        simp at h

lemma maxCheck_ok {ds : Dataset} {col : String} {mx : Option ℚ} {b : List FlaggedRow}
    (h : maxCheck ds col mx = .ok b) (mn : Option ℚ) (al : Option (List Cell)) :
    b = ruleMaxList ds col ⟨mn, mx, al⟩ := by
  cases mx with
  | none =>
    injection h with h2
    simp [← h2, ruleMaxList]
  | some m =>
    simp only [maxCheck] at h
    unfold ruleMaxFRs at h
    cases hd : colDataOf ds col with
    | none =>
      rw [hd] at h
      injection h with h2
      simp [← h2, ruleMaxList, hd]
    | some d =>
      cases d with
      | numeric vals =>
        rw [hd] at h
        injection h with h2
        simp [← h2, ruleMaxList, hd]
      | object vals =>
        rw [hd] at h
        simp at h

lemma allowedCheck_eq (ds : Dataset) (col : String) (al : Option (List Cell))
    (mn mx : Option ℚ) :
    allowedCheck ds col al = ruleAllowedList ds col ⟨mn, mx, al⟩ := by
  cases al with
  | none => simp [allowedCheck, ruleAllowedList]
  | some l =>
    simp only [allowedCheck]
    unfold ruleAllowedFRs
    cases hd : colDataOf ds col <;> simp [ruleAllowedList, hd]

lemma applyEntry_ok_eq {ds : Dataset} {col : String} {r : Rule} {e : List FlaggedRow}
    (h : applyEntry ds col r = .ok e) : e = entryList ds col r := by
  obtain ⟨mn, mx, al⟩ := r
  unfold applyEntry at h
  dsimp only at h
  by_cases hc : (colDataOf ds col).isNone
  · rw [if_pos hc] at h
    have hcn : colDataOf ds col = none := Option.isNone_iff_eq_none.mp hc
    injection h with h2
    cases mn <;> cases mx <;> cases al <;>
      simp [entryList, ruleMinList, ruleMaxList, ruleAllowedList, hcn, ← h2]
  · rw [if_neg hc] at h
    cases ha : minCheck ds col mn with
    | error u => rw [ha] at h; simp at h
    | ok a =>
      rw [ha] at h
      cases hb : maxCheck ds col mx with
      | error u => rw [hb] at h; simp at h
      | ok b =>
        rw [hb] at h
        dsimp only at h
        injection h with h2
        rw [← h2, entryList, minCheck_ok ha mx al, maxCheck_ok hb mn al,
          allowedCheck_eq ds col al mn mx]

lemma applyJsonRules_ok_entry {ds : Dataset} {rules : List (String × Rule)}
    {frs : List FlaggedRow} (h : applyJsonRules ds rules = .ok frs) :
    ∀ p ∈ rules, applyEntry ds p.1 p.2 = .ok (entryList ds p.1 p.2) := by
  induction rules generalizing frs with
  | nil => simp
  | cons q rest ih =>
    unfold applyJsonRules at h
    cases he : applyEntry ds q.1 q.2 with
    | error u => rw [he] at h; exact absurd h (by simp)
    | ok a =>
      rw [he] at h
      cases hr : applyJsonRules ds rest with
      | error u => rw [hr] at h; exact absurd h (by simp)
      | ok b =>
        intro p hp
        rcases List.mem_cons.mp hp with rfl | hp2
        · rw [he, applyEntry_ok_eq he]
        · exact ih hr p hp2

lemma applyJsonRules_ok_eq {ds : Dataset} {rules : List (String × Rule)}
    {frs : List FlaggedRow} (h : applyJsonRules ds rules = .ok frs) :
    frs = rules.flatMap (fun p => entryList ds p.1 p.2) := by
  induction rules generalizing frs with
  | nil =>
    injection h with h2
    simp [← h2]
  | cons q rest ih =>
    unfold applyJsonRules at h
    cases he : applyEntry ds q.1 q.2 with
    | error u => rw [he] at h; exact absurd h (by simp)
    | ok a =>
      rw [he] at h
      cases hr : applyJsonRules ds rest with
      | error u => rw [hr] at h; exact absurd h (by simp)
      | ok b =>
        rw [hr] at h
        injection h with h2
        rw [← h2, applyEntry_ok_eq he, ih hr]
        simp

lemma mem_ruleMinList_issue {ds : Dataset} {col : String} {r : Rule} {fr : FlaggedRow}
    (h : fr ∈ ruleMinList ds col r) : fr.issue = col ++ "_below_min" := by
  unfold ruleMinList at h
  split at h
  · simp only [List.mem_map] at h
    obtain ⟨i, -, rfl⟩ := h
    rfl
  · simp at h

lemma mem_ruleMaxList_issue {ds : Dataset} {col : String} {r : Rule} {fr : FlaggedRow}
    (h : fr ∈ ruleMaxList ds col r) : fr.issue = col ++ "_above_max" := by
  unfold ruleMaxList at h
  split at h
  · simp only [List.mem_map] at h
    obtain ⟨i, -, rfl⟩ := h
    rfl
  · simp at h

lemma mem_ruleAllowedList_issue {ds : Dataset} {col : String} {r : Rule}
    {fr : FlaggedRow} (h : fr ∈ ruleAllowedList ds col r) :
    fr.issue = col ++ "_invalid_value" := by
  unfold ruleAllowedList at h
  split at h
  · simp only [List.mem_map] at h
    obtain ⟨i, -, rfl⟩ := h
    rfl
  · simp at h

lemma mem_entryList_issue {ds : Dataset} {col : String} {r : Rule} {fr : FlaggedRow}
    (h : fr ∈ entryList ds col r) :
    fr.issue = col ++ "_below_min" ∨ fr.issue = col ++ "_above_max" ∨
      fr.issue = col ++ "_invalid_value" := by
  rcases List.mem_append.mp h with h2 | h2
  · rcases List.mem_append.mp h2 with h3 | h3
    · exact Or.inl (mem_ruleMinList_issue h3)
    · exact Or.inr (Or.inl (mem_ruleMaxList_issue h3))
  · exact Or.inr (Or.inr (mem_ruleAllowedList_issue h2))

lemma jsonStep_ok_issue {ds : Dataset} {rs : RulesSource} {j : List FlaggedRow}
    (h : jsonStep ds rs = .ok j) :
    ∀ fr ∈ j, ∃ c, fr.issue = c ++ "_below_min" ∨ fr.issue = c ++ "_above_max" ∨
      fr.issue = c ++ "_invalid_value" := by
  cases rs with
  | noHandle =>
    injection h with h2
    subst h2
    simp
  | missingFile =>
    injection h with h2
    subst h2
    simp
  | file o =>
    cases o with
    | none => exact absurd h (by simp [jsonStep])
    | some rules =>
      simp only [jsonStep] at h
      cases ha : applyJsonRules ds rules with
      | error u => rw [ha] at h; simp at h
      | ok l =>
        rw [ha] at h
        dsimp only at h
        injection h with h2
        subst h2
        intro fr hfr
        rw [applyJsonRules_ok_eq ha] at hfr
        simp only [List.mem_flatMap] at hfr
        obtain ⟨p, -, hin⟩ := hfr
        exact ⟨p.1, mem_entryList_issue hin⟩

lemma validate_ok_duplicate_count {ds : Dataset} {env : MLEnv} {rs : RulesSource}
    {r : ValidateResult} (h : validate ds env rs = .ok r) :
    labelCount r.flagged "duplicate" = (dupIdx ds).length := by
  obtain ⟨m, j, hm, hj, -, hr⟩ := validate_ok_iff.mp h
  subst hr
  simp only [allFlagged, labelCount, List.countP_append]
  have h1 : (missingFRs ds).countP (fun fr => fr.issue == "duplicate") = 0 := by
    rw [List.countP_eq_zero]
    intro fr hfr
    simp [mem_missingFRs_issue hfr]
  have h2 : (dupFRs ds).countP (fun fr => fr.issue == "duplicate") =
      (dupFRs ds).length := by
    rw [List.countP_eq_length]
    intro fr hfr
    simp [mem_dupFRs_issue hfr]
  have h3 : (negFRs ds).countP (fun fr => fr.issue == "duplicate") = 0 := by
    rw [List.countP_eq_zero]
    intro fr hfr
    obtain ⟨c, hc⟩ := mem_negFRs_issue hfr
    simp [hc, @append_ne_of_not_suffix "_negative" "duplicate" c (by decide)]
  have h4 : (outFRs ds).countP (fun fr => fr.issue == "duplicate") = 0 := by
    rw [List.countP_eq_zero]
    intro fr hfr
    obtain ⟨c, hc⟩ := mem_outFRs_issue hfr
    simp [hc, @append_ne_of_not_suffix "_outlier" "duplicate" c (by decide)]
  have h5 : (invFRs ds).countP (fun fr => fr.issue == "duplicate") = 0 := by
    rw [List.countP_eq_zero]
    intro fr hfr
    obtain ⟨c, hc⟩ := mem_invFRs_issue hfr
    simp [hc, @append_ne_of_not_suffix "_invalid_category" "duplicate" c (by decide)]
  have h6 : m.countP (fun fr => fr.issue == "duplicate") = 0 := by
    rw [List.countP_eq_zero]
    intro fr hfr
    simp [mlStep_ok_issue hm fr hfr]
  have h7 : j.countP (fun fr => fr.issue == "duplicate") = 0 := by
    rw [List.countP_eq_zero]
    intro fr hfr
    obtain ⟨c, hc⟩ := jsonStep_ok_issue hj fr hfr
    rcases hc with hc | hc | hc
    · simp [hc, @append_ne_of_not_suffix "_below_min" "duplicate" c (by decide)]
    · simp [hc, @append_ne_of_not_suffix "_above_max" "duplicate" c (by decide)]
    · simp [hc, @append_ne_of_not_suffix "_invalid_value" "duplicate" c (by decide)]
  rw [h1, h2, h3, h4, h5, h6, h7]
  simp [dupFRs]

/-- Claim C5 (confirmed): the duplicate detector marks row `i` iff an identical
row (all columns, missing cells comparing equal) occurs earlier; hence on any
3-row dataset of shape [A, A, A] exactly two rows are flagged `duplicate` by
`validate`, and on shape [A, B, A] with A ≠ B exactly one row is. -/
theorem duplicate_detector_characterization :
    (∀ rows : List (List Cell), ∀ i, i < rows.length →
      ((dupFlags rows).getD i false = true ↔ ∃ k < i, rows.get? k = rows.get? i)) ∧
    (∀ ds env rs r, validate ds env rs = .ok r → ds.nrows = 3 →
      rowOf ds 1 = rowOf ds 0 → rowOf ds 2 = rowOf ds 0 →
      labelCount r.flagged "duplicate" = 2) ∧
    (∀ ds env rs r, validate ds env rs = .ok r → ds.nrows = 3 →
      rowOf ds 1 ≠ rowOf ds 0 → rowOf ds 2 = rowOf ds 0 →
      labelCount r.flagged "duplicate" = 1) := by
  refine ⟨fun rows i h => dupFlags_getD_iff rows i h, ?_, ?_⟩
  · intro ds env rs r hok h3 h10 h20
    rw [validate_ok_duplicate_count hok]
    have hrows : rowsOf ds = [rowOf ds 0, rowOf ds 0, rowOf ds 0] := by
      unfold rowsOf
      rw [h3]
      show [rowOf ds 0, rowOf ds 1, rowOf ds 2] = _
      rw [h10, h20]
    have hfl : dupFlags (rowsOf ds) = [false, true, true] := by
      rw [hrows]
      simp [dupFlags, dupFlagsAux]
    unfold dupIdx
    rw [hfl, h3]
    rfl
  · intro ds env rs r hok h3 h10 h20
    rw [validate_ok_duplicate_count hok]
    have hrows : rowsOf ds = [rowOf ds 0, rowOf ds 1, rowOf ds 0] := by
      unfold rowsOf
      rw [h3]
      show [rowOf ds 0, rowOf ds 1, rowOf ds 2] = _
      rw [h20]
    have hfl : dupFlags (rowsOf ds) = [false, false, true] := by
      rw [hrows]
      simp [dupFlags, dupFlagsAux, h10]
    unfold dupIdx
    rw [hfl, h3]
    rfl

/-- Witness for C5: on the concrete dataset [A, A, A] (one text column, three
identical rows), `validate` succeeds and exactly two flagged rows carry the
`duplicate` label. -/
theorem duplicate_detector_characterization_witness :
    validate dsTriple envOk .noHandle = .ok wTriple ∧
    labelCount wTriple.flagged "duplicate" = 2 :=
  ⟨by decide,
   duplicate_detector_characterization.2.1 dsTriple envOk .noHandle wTriple
     (by decide) (by decide) (by decide) (by decide)⟩

lemma map_getD_congr {α β : Type} (f : α → β) (d : α) {l1 l2 : List α}
    (h : l1.map f = l2.map f) (k : Nat) :
    f (l1.getD k d) = f (l2.getD k d) := by
  have hlen : l1.length = l2.length := by
    have := congrArg List.length h
    simpa using this
  have h1 := congrArg (fun l => l.get? k) h
  simp only [List.get?_map] at h1
  cases hl : l1.get? k with
  | none =>
    have hk : l1.length ≤ k := List.get?_eq_none.mp hl
    have hl2 : l2.get? k = none := List.get?_eq_none.mpr (by omega)
    rw [List.getD_eq_get?, List.getD_eq_get?, hl, hl2]
  | some a =>
    rw [hl] at h1
    cases hl2 : l2.get? k with
    | none => rw [hl2] at h1; simp at h1
    | some b =>
      rw [hl2] at h1
      rw [List.getD_eq_get?, List.getD_eq_get?, hl, hl2]
      simpa using h1

/-- Claim C10 (confirmed): two raw rows that agree on all cells after NA
normalization (in particular rows whose missing cells used different source
markers such as "NA" versus "-") become identical rows of the dataframe, so the
duplicate detector marks the later one. -/
theorem normalized_markers_flag_duplicate
    (names : List String) (rows : List (List String)) (i j : Nat)
    (ri rj : List String)
    (hnames : names ≠ []) (hij : i < j)
    (hri : rows.get? i = some ri) (hrj : rows.get? j = some rj)
    (hnorm : ri.map normalizeCell = rj.map normalizeCell) :
    (dupFlags (rowsOf (buildObjectDataset names rows))).getD j false = true := by
  have hjlen : j < rows.length := by
    by_contra hc
    rw [List.get?_eq_none.mpr (by omega)] at hrj
    exact Option.noConfusion hrj
  have hnr : (buildObjectDataset names rows).nrows = rows.length := by
    cases names with
    | nil => exact absurd rfl hnames
    | cons n ntl =>
      simp [buildObjectDataset, Dataset.nrows, List.range_succ_eq_map, ColData.length]
  have hcell : ∀ k,
      (ColData.object (rows.map (fun r => normalizeCell (r.getD k "")))).cellAt i =
      (ColData.object (rows.map (fun r => normalizeCell (r.getD k "")))).cellAt j := by
    intro k
    have hmap := map_getD_congr normalizeCell "" hnorm k
    simp only [ColData.cellAt]
    rw [List.get?_map, List.get?_map, hri, hrj]
    simp only [Option.map_some']
    rw [hmap]
  have hrow : rowOf (buildObjectDataset names rows) i =
      rowOf (buildObjectDataset names rows) j := by
    unfold rowOf
    apply List.map_congr_left
    intro c hc
    simp only [buildObjectDataset, List.mem_map, List.mem_range] at hc
    obtain ⟨k, -, rfl⟩ := hc
    exact hcell k
  have hlen2 : j < (rowsOf (buildObjectDataset names rows)).length := by
    simp [rowsOf, hnr, hjlen]
  rw [dupFlags_getD_iff _ j hlen2]
  refine ⟨i, hij, ?_⟩
  have hgi : (rowsOf (buildObjectDataset names rows)).get? i =
      some (rowOf (buildObjectDataset names rows) i) := by
    rw [rowsOf, List.get?_map, List.get?_range (by omega)]
    rfl
  have hgj : (rowsOf (buildObjectDataset names rows)).get? j =
      some (rowOf (buildObjectDataset names rows) j) := by
    rw [rowsOf, List.get?_map, List.get?_range (by omega)]
    rfl
  rw [hgi, hgj, hrow]

/-- Witness for C10: rows ["x", "NA"] and ["x", "-"] normalize identically, and
the second is marked duplicate. -/
theorem normalized_markers_flag_duplicate_witness :
    ["x", "NA"].map normalizeCell = ["x", "-"].map normalizeCell ∧
    (dupFlags (rowsOf (buildObjectDataset ["a", "b"] [["x", "NA"], ["x", "-"]]))).getD
      1 false = true :=
  ⟨by decide,
   normalized_markers_flag_duplicate ["a", "b"] [["x", "NA"], ["x", "-"]] 0 1
     ["x", "NA"] ["x", "-"] (by decide) (by decide) (by decide) (by decide)
     (by decide)⟩

lemma colVar_nonneg {vals : List (Option ℚ)} (h : 2 ≤ colCount vals) :
    0 ≤ colVar vals := by
  unfold colVar
  apply div_nonneg
  · apply List.sum_nonneg
    intro x hx
    simp only [List.mem_map] at hx
    obtain ⟨v, -, rfl⟩ := hx
    positivity
  · have h2 : (2 : ℚ) ≤ (colCount vals : ℚ) := by exact_mod_cast h
    linarith

lemma three_sigma_sq_iff (v mu s : ℝ) (hs : 0 ≤ s) :
    ((v - mu) ^ 2 > 9 * s ^ 2 ↔ (v > mu + 3 * s ∨ v < mu - 3 * s)) := by
  have h9 : (9 : ℝ) * s ^ 2 = (3 * s) ^ 2 := by ring
  rw [h9]
  have h3s : (0 : ℝ) ≤ 3 * s := by linarith
  constructor
  · intro h
    have habs : 3 * s < |v - mu| := by
      by_contra hc
      push_neg at hc
      have hle := pow_le_pow_left (abs_nonneg (v - mu)) hc 2
      rw [sq_abs] at hle
      linarith
    rcases lt_abs.mp habs with h1 | h1
    · left; linarith
    · right; linarith
  · intro h
    have habs : 3 * s < |v - mu| := by
      rcases h with h1 | h1
      · exact lt_abs.mpr (Or.inl (by linarith))
      · exact lt_abs.mpr (Or.inr (by linarith))
    calc (3 * s) ^ 2 < |v - mu| ^ 2 := by
          exact pow_lt_pow_left habs h3s (by norm_num)
      _ = (v - mu) ^ 2 := sq_abs (v - mu)

lemma sq_gt_iff_real {v m var : ℚ} (hvar : 0 ≤ var) :
    ((v - m) ^ 2 > 9 * var ↔
      ((v : ℝ) > (m : ℝ) + 3 * Real.sqrt (var : ℝ) ∨
       (v : ℝ) < (m : ℝ) - 3 * Real.sqrt (var : ℝ))) := by
  have hvr : (0 : ℝ) ≤ (var : ℝ) := by exact_mod_cast hvar
  have hsq : Real.sqrt (var : ℝ) ^ 2 = (var : ℝ) := Real.sq_sqrt hvr
  have hQ : ((v - m) ^ 2 > 9 * var ↔
      ((v : ℝ) - (m : ℝ)) ^ 2 > 9 * (var : ℝ)) := by
    constructor <;> intro h
    · exact_mod_cast h
    · exact_mod_cast h
  rw [hQ]
  have hiff := three_sigma_sq_iff (v : ℝ) (m : ℝ) (Real.sqrt (var : ℝ))
    (Real.sqrt_nonneg _)
  rw [hsq] at hiff
  exact hiff

lemma outFlagCol_true_iff {vals : List (Option ℚ)} (h2 : 2 ≤ colCount vals)
    (i : Nat) :
    (outFlagCol vals i = true ↔
      ∃ v, vals.get? i = some (some v) ∧ (v - colMean vals) ^ 2 > 9 * colVar vals) := by
  unfold outFlagCol
  rw [if_neg (by omega)]
  cases hv : vals.get? i with
  | none => simp
  | some o =>
    cases o with
    | none => simp
    | some v => simp

lemma filterMap_id_replicate (n : Nat) (k : ℚ) :
    (List.replicate n (some k)).filterMap id = List.replicate n k := by
  induction n with
  | zero => rfl
  | succ m ih => simp [List.replicate_succ, ih]

/-- Claim C6 (confirmed): with at least two non-missing values, the three-sigma
detector selects row `i` iff its value `v` satisfies `v > mean + 3*std` or
`v < mean - 3*std` with `std = √(sample variance)` over the reals; with fewer
than two values (`std` undefined, NaN) no row is selected; and a constant column
yields no outliers whatever its size. -/
theorem outlier_detector_three_sigma (vals : List (Option ℚ)) (i : Nat) :
    (2 ≤ colCount vals →
      (i ∈ outIdxCol vals ↔ ∃ v, vals.get? i = some (some v) ∧
        ((v : ℝ) > ((colMean vals : ℚ) : ℝ) + 3 * colStd vals ∨
         (v : ℝ) < ((colMean vals : ℚ) : ℝ) - 3 * colStd vals))) ∧
    (colCount vals < 2 → outIdxCol vals = []) ∧
    (∀ k : ℚ, (∀ x ∈ vals, x = some k) → outIdxCol vals = []) := by
  refine ⟨?_, ?_, ?_⟩
  · intro h2
    have hvar := colVar_nonneg h2
    constructor
    · intro hi
      simp only [outIdxCol, List.mem_filter, List.mem_range] at hi
      obtain ⟨v, hv, hsq⟩ := (outFlagCol_true_iff h2 i).mp hi.2
      exact ⟨v, hv, (sq_gt_iff_real hvar).mp hsq⟩
    · rintro ⟨v, hv, hreal⟩
      have hflag := (outFlagCol_true_iff h2 i).mpr
        ⟨v, hv, (sq_gt_iff_real hvar).mpr hreal⟩
      simp only [outIdxCol, List.mem_filter, List.mem_range]
      obtain ⟨hlt, -⟩ := List.get?_eq_some.mp hv
      exact ⟨hlt, hflag⟩
  · intro h2
    unfold outIdxCol
    apply List.filter_eq_nil.mpr
    intro a ha
    simp [outFlagCol, h2]
  · intro k hk
    by_cases h2 : colCount vals < 2
    · unfold outIdxCol
      apply List.filter_eq_nil.mpr
      intro a ha
      simp [outFlagCol, h2]
    · push_neg at h2
      have hrep : vals = List.replicate vals.length (some k) :=
        List.eq_replicate_of_mem hk
      have hvalsk : colVals vals = List.replicate vals.length k := by
        show vals.filterMap id = _
        conv_lhs => rw [hrep]
        rw [filterMap_id_replicate]
      have hcount : colCount vals = vals.length := by
        show (colVals vals).length = _
        rw [hvalsk, List.length_replicate]
      have hlen2 : 2 ≤ vals.length := hcount ▸ h2
      have hne : ((vals.length : ℚ)) ≠ 0 := Nat.cast_ne_zero.mpr (by omega)
      have hmean : colMean vals = k := by
        show (colVals vals).sum / ((colCount vals : ℚ)) = k
        rw [hvalsk, List.sum_replicate, hcount, nsmul_eq_mul, mul_comm,
          mul_div_assoc, div_self hne, mul_one]
      have hvar0 : colVar vals = 0 := by
        show ((colVals vals).map (fun v => (v - colMean vals) ^ 2)).sum /
          ((colCount vals : ℚ) - 1) = 0
        rw [hvalsk, hmean]
        simp
      unfold outIdxCol
      apply List.filter_eq_nil.mpr
      intro a ha
      have hflag : outFlagCol vals a = false := by
        unfold outFlagCol
        rw [if_neg (by omega)]
        cases hv : vals.get? a with
        | none => rfl
        | some o =>
          cases o with
          | none => rfl
          | some v =>
            have hv2 : v = k := by
              have hmem : (some v : Option ℚ) ∈ vals := List.get?_mem hv
              have hvk := hk _ hmem
              injection hvk
            subst hv2
            rw [hmean, hvar0]
            simp
      simp [hflag]

/-- Witness for C6: on a column of nineteen zeros and one value 100, the count is
at least two and the three-sigma characterization applies at the last row. -/
theorem outlier_detector_three_sigma_witness :
    2 ≤ colCount vals20 ∧
    (19 ∈ outIdxCol vals20 ↔ ∃ v, vals20.get? 19 = some (some v) ∧
      ((v : ℝ) > ((colMean vals20 : ℚ) : ℝ) + 3 * colStd vals20 ∨
       (v : ℝ) < ((colMean vals20 : ℚ) : ℝ) - 3 * colStd vals20)) :=
  ⟨by decide, (outlier_detector_three_sigma vals20 19).1 (by decide)⟩

lemma cond_list_block_filter (n : String) (l : List Nat) :
    (if l ≠ [] then [(n, l.length)] else []) =
      List.filter (fun p => decide (0 < p.2)) [(n, l.length)] := by
  cases l <;> simp

lemma cond_nat_block_filter (n : String) (k : Nat) :
    (if k ≠ 0 then [(n, k)] else []) =
      List.filter (fun p => decide (0 < p.2)) [(n, k)] := by
  cases k <;> simp

lemma flatMap_block_filter {γ : Type} (cs : List γ) (name : γ → String)
    (cnt : γ → List Nat) :
    (cs.flatMap (fun c => if cnt c ≠ [] then [(name c, (cnt c).length)] else [])) =
      List.filter (fun p => decide (0 < p.2))
        (cs.map (fun c => (name c, (cnt c).length))) := by
  induction cs with
  | nil => rfl
  | cons c rest ih =>
    simp only [List.flatMap_cons, List.map_cons, List.filter_cons]
    rw [ih]
    cases hc : cnt c <;> simp

lemma summaryOf_eq_filter (ds : Dataset) (mlCount jsonCount : Nat) :
    summaryOf ds mlCount jsonCount =
      (canonicalPairs ds mlCount jsonCount).filter (fun p => decide (0 < p.2)) := by
  unfold summaryOf canonicalPairs
  rw [cond_list_block_filter, cond_list_block_filter, cond_nat_block_filter,
    cond_nat_block_filter, flatMap_block_filter, flatMap_block_filter,
    flatMap_block_filter]
  simp only [← List.filter_append, List.append_assoc, List.singleton_append,
    List.cons_append, List.nil_append]

/-- Claim C7 (confirmed): the Issue Counts mapping `validate` returns is exactly
the fixed-order category list — Missing Values, Duplicate Rows, Negative Values
(per numeric column, in column order), Outliers (per numeric column), Invalid
Categories (per non-numeric column), ML Anomalies, JSON Rule Violations — filtered
to the entries whose count is strictly positive. -/
theorem summary_positive_and_ordered {ds : Dataset} {env : MLEnv} {rs : RulesSource}
    {r : ValidateResult} {m j : List FlaggedRow}
    (hm : mlStep ds env = .ok m) (hj : jsonStep ds rs = .ok j)
    (h : validate ds env rs = .ok r) :
    r.summary = (canonicalPairs ds m.length j.length).filter
      (fun p => decide (0 < p.2)) := by
  obtain ⟨m2, j2, hm2, hj2, -, hr⟩ := validate_ok_iff.mp h
  rw [hm] at hm2
  rw [hj] at hj2
  injection hm2 with hm3
  injection hj2 with hj3
  subst hm3
  subst hj3
  rw [hr]
  exact summaryOf_eq_filter ds m.length j.length

/-- Witness for C7: on the [A, A, A] dataset the returned summary is exactly the
positive entries of the canonical ordered list. -/
theorem summary_positive_and_ordered_witness :
    validate dsTriple envOkB .noHandle = .ok wTriple ∧
    wTriple.summary = (canonicalPairs dsTriple 0 0).filter
      (fun p => decide (0 < p.2)) := by
  refine ⟨by decide, ?_⟩
  have h := summary_positive_and_ordered
    (show mlStep dsTriple envOkB = Except.ok [] by decide)
    (show jsonStep dsTriple .noHandle = Except.ok [] by decide)
    (show validate dsTriple envOkB .noHandle = Except.ok wTriple by decide)
  exact h

/-- Claim C8 (confirmed): `validate` is deterministic — its output depends on the
anomaly scorers only through their values at the fixed configuration
(contamination 1/100, random seed 42, neighborhood size 20) applied to the
dataset's complete numeric rows. Two runs on the same dataset and the same rule
set with scorers that agree there return identical flagged rows and identical
issue counts. -/
theorem validate_deterministic (ds : Dataset) (rs : RulesSource) (ea eb : MLEnv)
    (hiso : ea.iso (1 / 100) 42 ((mlInput ds).map Prod.snd) =
      eb.iso (1 / 100) 42 ((mlInput ds).map Prod.snd))
    (hlof : ea.lof 20 (1 / 100) ((mlInput ds).map Prod.snd) =
      eb.lof 20 (1 / 100) ((mlInput ds).map Prod.snd)) :
    validate ds ea rs = validate ds eb rs := by
  unfold validate mlStep
  rw [hiso, hlof]

/-- Witness for C8: two syntactically different environments agreeing at the fixed
configuration give identical runs on a concrete dataset. -/
theorem validate_deterministic_witness :
    envOk.iso (1 / 100) 42 ((mlInput dsOneRow).map Prod.snd) =
      envOkB.iso (1 / 100) 42 ((mlInput dsOneRow).map Prod.snd) ∧
    validate dsOneRow envOk .noHandle = validate dsOneRow envOkB .noHandle :=
  ⟨by decide,
   validate_deterministic dsOneRow .noHandle envOk envOkB (by decide) (by decide)⟩

lemma mem_ite_singleton {α : Type} {c : Prop} [Decidable c] {x p : α}
    (h : p ∈ (if c then [x] else [])) : p = x := by
  split at h
  · simpa using h
  · simp at h

lemma paren_name_ne {pre t : String} (c suf : String)
    (h : ¬ pre.data <+: t.data) : pre ++ c ++ suf ≠ t := by
  rw [String.append_assoc]
  exact append_ne_of_not_prefix (c ++ suf) h

lemma summaryOf_mem_name {ds : Dataset} {mlCount : Nat} {p : String × Nat}
    (hp : p ∈ summaryOf ds mlCount 0) :
    p.1 = "Missing Values" ∨ p.1 = "Duplicate Rows" ∨
    (∃ c, p.1 = "Negative Values (" ++ c ++ ")") ∨
    (∃ c, p.1 = "Outliers (" ++ c ++ ")") ∨
    (∃ c, p.1 = "Invalid Categories (" ++ c ++ ")") ∨ p.1 = "ML Anomalies" := by
  unfold summaryOf at hp
  rcases List.mem_append.mp hp with h | h
  rotate_left
  · simp at h
  rcases List.mem_append.mp h with h | h
  rotate_left
  · rw [mem_ite_singleton h]
    exact Or.inr (Or.inr (Or.inr (Or.inr (Or.inr rfl))))
  rcases List.mem_append.mp h with h | h
  rotate_left
  · simp only [List.mem_flatMap] at h
    obtain ⟨c, -, hin⟩ := h
    rw [mem_ite_singleton hin]
    exact Or.inr (Or.inr (Or.inr (Or.inr (Or.inl ⟨c.1, rfl⟩))))
  rcases List.mem_append.mp h with h | h
  rotate_left
  · simp only [List.mem_flatMap] at h
    obtain ⟨c, -, hin⟩ := h
    rw [mem_ite_singleton hin]
    exact Or.inr (Or.inr (Or.inr (Or.inl ⟨c.1, rfl⟩)))
  rcases List.mem_append.mp h with h | h
  rotate_left
  · simp only [List.mem_flatMap] at h
    obtain ⟨c, -, hin⟩ := h
    rw [mem_ite_singleton hin]
    exact Or.inr (Or.inr (Or.inl ⟨c.1, rfl⟩))
  rcases List.mem_append.mp h with h | h
  · rw [mem_ite_singleton h]
    exact Or.inl rfl
  · rw [mem_ite_singleton h]
    exact Or.inr (Or.inl rfl)

/-- Claim C3 (amended, proved): a rule-set handle to malformed content is fatal —
`validate` never returns a result there, and raises the parse error whenever the
ML block did not already raise; an absent handle and a non-existent file behave
identically to "no rules": the rule detector contributes no flagged rows and no
"JSON Rule Violations" entry appears in the returned summary. The absence itself
is non-fatal (the run equals the no-handle run), though the run can still fail for
the unrelated empty-`bad_rows` report defect. -/
theorem rules_absent_treated_as_no_rules (ds : Dataset) (env : MLEnv) :
    (∀ r, validate ds env (.file none) ≠ .ok r) ∧
    (∀ m, mlStep ds env = .ok m →
      validate ds env (.file none) = .error .parseError) ∧
    validate ds env .missingFile = validate ds env .noHandle ∧
    jsonStep ds .missingFile = .ok [] ∧ jsonStep ds .noHandle = .ok [] ∧
    (∀ r, validate ds env .noHandle = .ok r →
      ∀ p ∈ r.summary, p.1 ≠ "JSON Rule Violations") := by
  refine ⟨?_, ?_, rfl, rfl, rfl, ?_⟩
  · intro r hcon
    obtain ⟨m, j, -, hj, -, -⟩ := validate_ok_iff.mp hcon
    simp [jsonStep] at hj
  · intro m hm
    unfold validate
    rw [hm]
    rfl
  · intro r hok p hp
    obtain ⟨m, j, hm, hj, -, hr⟩ := validate_ok_iff.mp hok
    have hj0 : j = [] := by
      have h2 : (Except.ok ([] : List FlaggedRow) : Except Err (List FlaggedRow)) =
          .ok j := by
        rw [← hj]
        rfl
      injection h2 with h3
      exact h3.symm
    subst hj0
    subst hr
    have hname := summaryOf_mem_name (by simpa using hp)
    rcases hname with h | h | ⟨c, h⟩ | ⟨c, h⟩ | ⟨c, h⟩ | h
    · rw [h]; decide
    · rw [h]; decide
    · rw [h]; exact paren_name_ne c ")" (by decide)
    · rw [h]; exact paren_name_ne c ")" (by decide)
    · rw [h]; exact paren_name_ne c ")" (by decide)
    · rw [h]; decide

/-- Witness for C3: on a concrete clean dataset, a missing rules file behaves as
no rules, and a malformed rules file never yields a result. -/
theorem rules_absent_treated_as_no_rules_witness :
    validate dsClean envOk .missingFile = validate dsClean envOk .noHandle ∧
    validate dsClean envOk (.file none) ≠ .ok ⟨[], []⟩ :=
  ⟨(rules_absent_treated_as_no_rules dsClean envOk).2.2.1,
   (rules_absent_treated_as_no_rules dsClean envOk).1 ⟨[], []⟩⟩

lemma key_unique {α β : Type} [DecidableEq α] (l : List (α × β))
    (hnd : (l.map Prod.fst).Nodup) (k : α) (v1 v2 : β)
    (h1 : (k, v1) ∈ l) (h2 : (k, v2) ∈ l) : v1 = v2 := by
  induction l with
  | nil => simp at h1
  | cons q rest ih =>
    simp only [List.map_cons, List.nodup_cons] at hnd
    rcases List.mem_cons.mp h1 with he1 | ht1
    · rcases List.mem_cons.mp h2 with he2 | ht2
      · rw [← he2] at he1
        exact congrArg Prod.snd he1
      · exfalso
        subst he1
        exact hnd.1 (List.mem_map.mpr ⟨(k, v2), ht2, rfl⟩)
    · rcases List.mem_cons.mp h2 with he2 | ht2
      · exfalso
        subst he2
        exact hnd.1 (List.mem_map.mpr ⟨(k, v1), ht1, rfl⟩)
      · exact ih hnd.2 ht1 ht2

lemma mem_idxWhereNum {vals : List (Option ℚ)} {p : ℚ → Bool} {i : Nat} :
    i ∈ idxWhereNum vals p ↔ ∃ v, vals.get? i = some (some v) ∧ p v = true := by
  unfold idxWhereNum
  rw [List.mem_filter, List.mem_range]
  constructor
  · rintro ⟨hlt, hmatch⟩
    cases hv : vals.get? i with
    | none => rw [hv] at hmatch; simp at hmatch
    | some o =>
      cases o with
      | none => rw [hv] at hmatch; simp at hmatch
      | some v =>
        rw [hv] at hmatch
        exact ⟨v, rfl, by simpa using hmatch⟩
  · rintro ⟨v, hv, hp⟩
    obtain ⟨hlt, -⟩ := List.get?_eq_some.mp hv
    refine ⟨hlt, ?_⟩
    rw [hv]
    simpa using hp

lemma mem_ruleMinList {ds : Dataset} {col : String} {r : Rule} {fr : FlaggedRow} :
    fr ∈ ruleMinList ds col r ↔
      ∃ m vals i, r.min = some m ∧ colDataOf ds col = some (.numeric vals) ∧
        i ∈ idxWhereNum vals (fun v => decide (v < m)) ∧
        fr = ⟨i, fullRowCells ds i, col ++ "_below_min"⟩ := by
  obtain ⟨mn, mx, al⟩ := r
  unfold ruleMinList
  dsimp only
  cases mn with
  | none => simp
  | some m =>
    cases hd : colDataOf ds col with
    | none => simp
    | some d =>
      cases d with
      | numeric vals =>
        simp only [List.mem_map]
        constructor
        · rintro ⟨i, hi, rfl⟩
          exact ⟨m, vals, i, rfl, rfl, hi, rfl⟩
        · rintro ⟨m2, vals2, i, hm2, hd2, hi, rfl⟩
          injection hm2 with hm3
          injection hd2 with hd3
          injection hd3 with hd4
          subst hm3
          subst hd4
          exact ⟨i, hi, rfl⟩
      | object vals => simp

lemma mem_ruleMaxList {ds : Dataset} {col : String} {r : Rule} {fr : FlaggedRow} :
    fr ∈ ruleMaxList ds col r ↔
      ∃ m vals i, r.max = some m ∧ colDataOf ds col = some (.numeric vals) ∧
        i ∈ idxWhereNum vals (fun v => decide (v > m)) ∧
        fr = ⟨i, fullRowCells ds i, col ++ "_above_max"⟩ := by
  obtain ⟨mn, mx, al⟩ := r
  unfold ruleMaxList
  dsimp only
  cases mx with
  | none => simp
  | some m =>
    cases hd : colDataOf ds col with
    | none => simp
    | some d =>
      cases d with
      | numeric vals =>
        simp only [List.mem_map]
        constructor
        · rintro ⟨i, hi, rfl⟩
          exact ⟨m, vals, i, rfl, rfl, hi, rfl⟩
        · rintro ⟨m2, vals2, i, hm2, hd2, hi, rfl⟩
          injection hm2 with hm3
          injection hd2 with hd3
          injection hd3 with hd4
          subst hm3
          subst hd4
          exact ⟨i, hi, rfl⟩
      | object vals => simp

lemma mem_ruleAllowedList {ds : Dataset} {col : String} {r : Rule} {fr : FlaggedRow} :
    fr ∈ ruleAllowedList ds col r ↔
      ∃ l d i, r.allowed = some l ∧ colDataOf ds col = some d ∧ i < d.length ∧
        d.cellAt i ∉ l ∧ fr = ⟨i, fullRowCells ds i, col ++ "_invalid_value"⟩ := by
  obtain ⟨mn, mx, al⟩ := r
  unfold ruleAllowedList
  dsimp only
  cases al with
  | none => simp
  | some l =>
    cases hd : colDataOf ds col with
    | none => simp
    | some d =>
      simp only [List.mem_map, List.mem_filter, List.mem_range]
      constructor
      · rintro ⟨i, ⟨hlt, hni⟩, rfl⟩
        exact ⟨l, d, i, rfl, rfl, hlt, by simpa using hni, rfl⟩
      · rintro ⟨l2, d2, i, hl2, hd2, hlt, hni, rfl⟩
        injection hl2 with hl3
        injection hd2 with hd3
        subst hl3
        subst hd3
        exact ⟨i, ⟨hlt, by simpa using hni⟩, rfl⟩

/-- Claim C4 (confirmed): for a rule set with unique keys that ran without a type
error, a row is flagged `<column>_below_min` iff that column's rule has a `min`
the value is strictly below, `<column>_above_max` iff strictly above its `max`,
and `<column>_invalid_value` iff the cell is not a member of its `allowed` list —
each check emitting separately; and on the spec's example
(`{"price": {"min": 0, "max": 1000}}` against prices −5, 500, 2000) the detector
returns exactly the two rows `price_below_min` (−5) and `price_above_max` (2000),
leaving the 500 row unflagged. -/
theorem json_rules_characterization :
    (∀ (ds : Dataset) (rules : List (String × Rule)) (frs : List FlaggedRow)
      (col : String) (rule : Rule) (i : Nat),
      applyJsonRules ds rules = .ok frs →
      (rules.map Prod.fst).Nodup →
      (col, rule) ∈ rules →
      ((∀ m vals, rule.min = some m → colDataOf ds col = some (.numeric vals) →
        ((∃ fr ∈ frs, fr.idx = i ∧ fr.issue = col ++ "_below_min") ↔
          ∃ v, vals.get? i = some (some v) ∧ v < m)) ∧
       (∀ m vals, rule.max = some m → colDataOf ds col = some (.numeric vals) →
        ((∃ fr ∈ frs, fr.idx = i ∧ fr.issue = col ++ "_above_max") ↔
          ∃ v, vals.get? i = some (some v) ∧ v > m)) ∧
       (∀ l d, rule.allowed = some l → colDataOf ds col = some d →
        ((∃ fr ∈ frs, fr.idx = i ∧ fr.issue = col ++ "_invalid_value") ↔
          (i < d.length ∧ d.cellAt i ∉ l))))) ∧
    applyJsonRules dsPrice rulesPrice = .ok
      [⟨0, fullRowCells dsPrice 0, "price_below_min"⟩,
       ⟨2, fullRowCells dsPrice 2, "price_above_max"⟩] := by
  constructor
  · intro ds rules frs col rule i hok hnd hmem
    have hfr_iff : ∀ fr : FlaggedRow,
        fr ∈ frs ↔ ∃ p ∈ rules, fr ∈ entryList ds p.1 p.2 := by
      intro fr
      rw [applyJsonRules_ok_eq hok, List.mem_flatMap]
    have hkey : ∀ p ∈ rules, p.1 = col → p.2 = rule := by
      intro p hp hcol
      have hpp : (col, p.2) ∈ rules := by
        rw [← hcol]
        exact hp
      exact key_unique rules hnd col p.2 rule hpp hmem
    refine ⟨?_, ?_, ?_⟩
    · intro m vals hm hd
      constructor
      · rintro ⟨fr, hfr, hidx, hissue⟩
        obtain ⟨p, hp, hin⟩ := (hfr_iff fr).mp hfr
        unfold entryList at hin
        rcases List.mem_append.mp hin with hin2 | hallow
        · rcases List.mem_append.mp hin2 with hmin | hmax
          · rw [mem_ruleMinList] at hmin
            obtain ⟨m2, vals2, i2, hm2, hd2, hiw, rfl⟩ := hmin
            have hcol : p.1 = col := string_append_right_cancel hissue
            have hp2 : p.2 = rule := hkey p hp hcol
            rw [hp2, hm] at hm2
            injection hm2 with hm3
            rw [hcol, hd] at hd2
            injection hd2 with hd3
            injection hd3 with hd4
            subst hm3
            subst hd4
            have hidx2 : i2 = i := hidx
            subst hidx2
            obtain ⟨v, hv, hvlt⟩ := mem_idxWhereNum.mp hiw
            exact ⟨v, hv, by simpa using hvlt⟩
          · rw [mem_ruleMaxList] at hmax
            obtain ⟨m2, vals2, i2, -, -, -, rfl⟩ := hmax
            rcases suffix_clash hissue with hs | hs
            · exact absurd hs (by decide)
            · exact absurd hs (by decide)
        · rw [mem_ruleAllowedList] at hallow
          obtain ⟨l2, d2, i2, -, -, -, -, rfl⟩ := hallow
          rcases suffix_clash hissue with hs | hs
          · exact absurd hs (by decide)
          · exact absurd hs (by decide)
      · rintro ⟨v, hv, hvlt⟩
        refine ⟨⟨i, fullRowCells ds i, col ++ "_below_min"⟩, ?_, rfl, rfl⟩
        apply (hfr_iff _).mpr
        refine ⟨(col, rule), hmem, ?_⟩
        unfold entryList
        apply List.mem_append.mpr
        left
        apply List.mem_append.mpr
        left
        rw [mem_ruleMinList]
        exact ⟨m, vals, i, hm, hd,
          mem_idxWhereNum.mpr ⟨v, hv, by simpa using hvlt⟩, rfl⟩
    · intro m vals hm hd
      constructor
      · rintro ⟨fr, hfr, hidx, hissue⟩
        obtain ⟨p, hp, hin⟩ := (hfr_iff fr).mp hfr
        unfold entryList at hin
        rcases List.mem_append.mp hin with hin2 | hallow
        · rcases List.mem_append.mp hin2 with hmin | hmax
          · rw [mem_ruleMinList] at hmin
            obtain ⟨m2, vals2, i2, -, -, -, rfl⟩ := hmin
            rcases suffix_clash hissue with hs | hs
            · exact absurd hs (by decide)
            · exact absurd hs (by decide)
          · rw [mem_ruleMaxList] at hmax
            obtain ⟨m2, vals2, i2, hm2, hd2, hiw, rfl⟩ := hmax
            have hcol : p.1 = col := string_append_right_cancel hissue
            have hp2 : p.2 = rule := hkey p hp hcol
            rw [hp2, hm] at hm2
            injection hm2 with hm3
            rw [hcol, hd] at hd2
            injection hd2 with hd3
            injection hd3 with hd4
            subst hm3
            subst hd4
            have hidx2 : i2 = i := hidx
            subst hidx2
            obtain ⟨v, hv, hvgt⟩ := mem_idxWhereNum.mp hiw
            exact ⟨v, hv, by simpa using hvgt⟩
        · rw [mem_ruleAllowedList] at hallow
          obtain ⟨l2, d2, i2, -, -, -, -, rfl⟩ := hallow
          rcases suffix_clash hissue with hs | hs
          · exact absurd hs (by decide)
          · exact absurd hs (by decide)
      · rintro ⟨v, hv, hvgt⟩
        refine ⟨⟨i, fullRowCells ds i, col ++ "_above_max"⟩, ?_, rfl, rfl⟩
        apply (hfr_iff _).mpr
        refine ⟨(col, rule), hmem, ?_⟩
        unfold entryList
        apply List.mem_append.mpr
        left
        apply List.mem_append.mpr
        right
        rw [mem_ruleMaxList]
        exact ⟨m, vals, i, hm, hd,
          mem_idxWhereNum.mpr ⟨v, hv, by simpa using hvgt⟩, rfl⟩
    · intro l d hl hd
      constructor
      · rintro ⟨fr, hfr, hidx, hissue⟩
        obtain ⟨p, hp, hin⟩ := (hfr_iff fr).mp hfr
        unfold entryList at hin
        rcases List.mem_append.mp hin with hin2 | hallow
        · rcases List.mem_append.mp hin2 with hmin | hmax
          · rw [mem_ruleMinList] at hmin
            obtain ⟨m2, vals2, i2, -, -, -, rfl⟩ := hmin
            rcases suffix_clash hissue with hs | hs
            · exact absurd hs (by decide)
            · exact absurd hs (by decide)
          · rw [mem_ruleMaxList] at hmax
            obtain ⟨m2, vals2, i2, -, -, -, rfl⟩ := hmax
            rcases suffix_clash hissue with hs | hs
            · exact absurd hs (by decide)
            · exact absurd hs (by decide)
        · rw [mem_ruleAllowedList] at hallow
          obtain ⟨l2, d2, i2, hl2, hd2, hlt, hni, rfl⟩ := hallow
          have hcol : p.1 = col := string_append_right_cancel hissue
          have hp2 : p.2 = rule := hkey p hp hcol
          rw [hp2, hl] at hl2
          injection hl2 with hl3
          rw [hcol, hd] at hd2
          injection hd2 with hd3
          subst hl3
          subst hd3
          have hidx2 : i2 = i := hidx
          subst hidx2
          exact ⟨hlt, hni⟩
      · rintro ⟨hlt, hni⟩
        refine ⟨⟨i, fullRowCells ds i, col ++ "_invalid_value"⟩, ?_, rfl, rfl⟩
        apply (hfr_iff _).mpr
        refine ⟨(col, rule), hmem, ?_⟩
        unfold entryList
        apply List.mem_append.mpr
        right
        rw [mem_ruleAllowedList]
        exact ⟨l, d, i, hl, hd, hlt, hni, rfl⟩
  · decide

/-- Witness for C4: the characterization instantiated on the spec's price example,
at row 0 and the `min` field of the `price` rule. -/
theorem json_rules_characterization_witness :
    (rulesPrice.map Prod.fst).Nodup ∧
    ((∃ fr ∈ [(⟨0, fullRowCells dsPrice 0, "price_below_min"⟩ : FlaggedRow),
        ⟨2, fullRowCells dsPrice 2, "price_above_max"⟩],
        fr.idx = 0 ∧ fr.issue = "price" ++ "_below_min") ↔
      ∃ v, [some (-5 : ℚ), some 500, some 2000].get? 0 = some (some v) ∧ v < 0) := by
  refine ⟨by decide, ?_⟩
  exact (json_rules_characterization.1 dsPrice rulesPrice
    [⟨0, fullRowCells dsPrice 0, "price_below_min"⟩,
     ⟨2, fullRowCells dsPrice 2, "price_above_max"⟩]
    "price" ⟨some 0, some 1000, none⟩ 0
    (by decide) (by decide) (by decide)).1 0 [some (-5), some 500, some 2000]
    (by decide) (by decide)

end DataVal
